import Mathlib

/-!
Verification development for the `ununknown` validator/parser combinator
library. The definitions below are a shallow embedding of the library's
runtime behaviour: JavaScript runtime values are modelled by `JSValue`,
the `Either` result type mirrors fp-ts `Either`, and a computation that
may raise a JavaScript `TypeError` (e.g. the `in` operator applied to
`null`) is modelled by `JSRun`. The string error channel of the main
iteration is modelled structurally by `ErrMsg`: each constructor
corresponds to one template-string construction site in the source and
carries exactly the data interpolated there (human-readable rendering of
errors is out of scope).
-/

namespace Ununknown

/-- Model of a JavaScript runtime value, restricted to the categories the
library manipulates. `func` is an opaque function value (e.g. an inherited
`Object.prototype` method), tagged with its name. -/
inductive JSValue : Type
  | null : JSValue
  | undefined : JSValue
  | bool : Bool → JSValue
  | num : Int → JSValue
  | str : String → JSValue
  | func : String → JSValue
  | obj : List (String × JSValue) → JSValue
  | arr : List JSValue → JSValue
deriving Repr

/-- JavaScript `typeof`. Note `typeof null === "object"`. -/
def typeofJS : JSValue → String
  | .null => "object"
  | .undefined => "undefined"
  | .bool _ => "boolean"
  | .num _ => "number"
  | .str _ => "string"
  | .func _ => "function"
  | .obj _ => "object"
  | .arr _ => "object"

/-- The enumerable-irrelevant property names every plain object inherits
from `Object.prototype`; the JavaScript `in` operator reports all of them
as members of any object. -/
def objectProtoProps : List String :=
  ["constructor", "hasOwnProperty", "isPrototypeOf", "propertyIsEnumerable",
   "toLocaleString", "toString", "valueOf", "__proto__",
   "__defineGetter__", "__defineSetter__", "__lookupGetter__", "__lookupSetter__"]

/-- A few of the property names every array inherits from `Array.prototype`
(besides the own property `length` and the index properties). -/
def arrayProtoProps : List String :=
  ["push", "pop", "shift", "unshift", "map", "filter", "forEach", "slice",
   "splice", "concat", "join", "indexOf", "includes", "find", "reduce"]

/-- Membership test of the JavaScript `in` operator on an object-like value
(own or inherited property). Only meaningful for `obj`, `arr` and `func`. -/
def memberB (name : String) : JSValue → Bool
  | .obj fs => fs.any (fun p => p.1 == name) || objectProtoProps.contains name
  | .arr es =>
      ((List.range es.length).map (fun i => toString i)).contains name
        || name == "length" || arrayProtoProps.contains name
        || objectProtoProps.contains name
  | .func _ =>
      ["length", "name", "prototype", "call", "apply", "bind"].contains name
        || objectProtoProps.contains name
  | _ => false

/-- Outcome of evaluating a JavaScript expression that can raise: either a
thrown `TypeError` (with a canonical message) or a value. -/
inductive JSRun (α : Type) : Type
  | thrown : String → JSRun α
  | val : α → JSRun α
deriving DecidableEq, Repr

/-- Exception propagation: a thrown error aborts the rest of the
computation, exactly as in JavaScript. -/
def JSRun.bind : JSRun α → (α → JSRun β) → JSRun β
  | .thrown m, _ => .thrown m
  | .val a, f => f a

/-- The JavaScript `in` operator: `name in v`. Throws a `TypeError` when the
right-hand side is `null`, `undefined` or a primitive. -/
def inOp (name : String) : JSValue → JSRun Bool
  | .obj fs => .val (memberB name (.obj fs))
  | .arr es => .val (memberB name (.arr es))
  | .func f => .val (memberB name (.func f))
  | _ => .thrown "TypeError: cannot use in operator"

/-- Member access `v[name]`, as used by the field accessors after a
successful `in` test: an own property's value, an inherited prototype
property (an opaque function), or `undefined`. -/
def getField (v : JSValue) (name : String) : JSValue :=
  match v with
  | .obj fs =>
      match fs.find? (fun p => p.1 == name) with
      | some p => p.2
      | none => if objectProtoProps.contains name then .func name else .undefined
  | .arr es =>
      match ((List.range es.length).map (fun i => toString i)).indexOf? name with
      | some i => es.getD i .undefined
      | none =>
          if name == "length" then .num es.length
          else if arrayProtoProps.contains name || objectProtoProps.contains name then .func name
          else .undefined
  | _ => .undefined

/-- `Object.keys(v)`: the own enumerable property names, in insertion
order. Throws on `null` and `undefined`. -/
def objectKeys : JSValue → JSRun (List String)
  | .obj fs => .val (fs.map Prod.fst)
  | .arr es => .val ((List.range es.length).map (fun i => toString i))
  | .str s => .val ((List.range s.length).map (fun i => toString i))
  | .null => .thrown "TypeError: Object.keys on null or undefined"
  | .undefined => .thrown "TypeError: Object.keys on null or undefined"
  | _ => .val []

/-- The fp-ts `Either` sum type: `left` is failure, `right` is success. -/
inductive Either (ε α : Type) : Type
  | left : ε → Either ε α
  | right : α → Either ε α
deriving Repr

/-- fp-ts `isLeft`, as a Boolean (the source's `isFailure`). -/
def Either.isLeftB : Either ε α → Bool
  | .left _ => true
  | .right _ => false

namespace Efp

/-- fp-ts `Either.map`. -/
def map (f : α → β) : Either ε α → Either ε β
  | .left e => .left e
  | .right a => .right (f a)

/-- fp-ts `Either.chain` (the data-last `chain(f)(ma)`). -/
def chain (f : α → Either ε β) : Either ε α → Either ε β
  | .left e => .left e
  | .right a => f a

/-- fp-ts `Either.ap`: `ap(fa)(fab)`; a `left` of the function side wins. -/
def ap (fa : Either ε α) (fab : Either ε (α → β)) : Either ε β :=
  match fab with
  | .left e => .left e
  | .right f =>
      match fa with
      | .left e => .left e
      | .right a => .right (f a)

end Efp

/-- Structural model of the string error channel of the main iteration
(`src/unnamed/part_001`, first file). Each constructor stands for one
template-string construction site in the source and carries the data that
the template interpolates. -/
inductive ErrMsg : Type
  | notOfType : JSValue → String → ErrMsg
  | notEqualTo : JSValue → JSValue → ErrMsg
  | predicateFailed : JSValue → String → ErrMsg
  | doesNotContainField : JSValue → String → ErrMsg
  | extraFields : JSValue → List String → List String → ErrMsg
  | notAnArray : JSValue → ErrMsg
  | invalidArray : JSValue → List ErrMsg → ErrMsg
  | combined : ErrMsg → ErrMsg → ErrMsg
deriving Repr

/-- `Parser<R, E, O>` from `src/unnamed/part_001`: a wrapped function from
an input to a parse result; the result lives in `JSRun` because running a
parser can raise a JavaScript `TypeError`. -/
structure Parser (R E O : Type) : Type where
  runParser : O → JSRun (Either E R)

/-- `of` from `parserApplicative`: always succeed with `a`. -/
def of (a : A) : Parser A E C :=
  ⟨fun _ => .val (.right a)⟩

/-- `succeed(result)`: the source delegates to `of`. -/
def succeed (result : R) : Parser R E B :=
  of result

/-- `fail(error)`: always fail with `error`. -/
def fail (error : E) : Parser R E B :=
  ⟨fun _ => .val (.left error)⟩

/-- `parserFunctor.map`: run `v`, then `Efp.map f` over the result. -/
def map (v : Parser A E C) (f : A → B) : Parser B E C :=
  ⟨fun o => (v.runParser o).bind fun r => .val (Efp.map f r)⟩

/-- `parserApplicative.ap`: run both against the same input (the argument
parser is evaluated first, as in the source's call order). -/
def ap (fab : Parser (A → B) E C) (a : Parser A E C) : Parser B E C :=
  ⟨fun o => (a.runParser o).bind fun ra =>
    (fab.runParser o).bind fun rf => .val (Efp.ap ra rf)⟩

/-- `parserMonad.chain`: on `right a` run `afb a` on the same original
input, on `left e` propagate the failure. -/
def chain (fa : Parser A E C) (afb : A → Parser B E C) : Parser B E C :=
  ⟨fun o => (fa.runParser o).bind fun r =>
    match r with
    | .left e => .val (.left e)
    | .right a => (afb a).runParser o⟩

/-- `compose(vb, vc)`: feed `vb`'s successful result to `vc`. -/
def compose (vb : Parser B E A) (vc : Parser C E B) : Parser C E A :=
  chain vb (fun b => ⟨fun _ => vc.runParser b⟩)

/-- `recursive(body)`: invoke the thunk at every invocation and delegate
to the parser it returns. -/
def recursive (body : Unit → Parser R E I) : Parser R E I :=
  ⟨fun o => (body ()).runParser o⟩

/-- `both(fst, snd)`: pair two parsers via `ap`/`map`. -/
def both (fst : Parser T E I) (snd : Parser U E I) : Parser (T × U) E I :=
  ap (map fst (fun t => fun u => (t, u))) snd

/-- `or(fst, snd)`: run both on the same input (both are evaluated before
the result is inspected); succeed with the first success, left-biased;
when both fail, combine the two errors (the source's
`` `${fres.left} and ${sres.left}` `` merge). The source's `T | U` result
union is untagged at runtime, so it is modelled at a single result type. -/
def or (fst : Parser T ErrMsg B) (snd : Parser T ErrMsg B) : Parser T ErrMsg B :=
  ⟨fun o => (fst.runParser o).bind fun fres =>
    (snd.runParser o).bind fun sres =>
      match fres with
      | .right a => .val (.right a)
      | .left e1 =>
          match sres with
          | .right b => .val (.right b)
          | .left e2 => .val (.left (.combined e1 e2))⟩

/-- `thing.is.of(type)`: check the input's `typeof` string against `type`;
on mismatch the error is the `is not of type` template (carrying the value
and the type tag). -/
def thingIsOf (type : String) : Parser JSValue ErrMsg JSValue :=
  ⟨fun o => .val (if typeofJS o == type then .right o else .left (.notOfType o type))⟩

/-- `thing.is.string`. -/
def thingIsString : Parser JSValue ErrMsg JSValue := thingIsOf "string"

/-- `thing.is.number`. -/
def thingIsNumber : Parser JSValue ErrMsg JSValue := thingIsOf "number"

/-- `thing.is.object`. -/
def thingIsObject : Parser JSValue ErrMsg JSValue := thingIsOf "object"

/-- `predicate(type)(p, template)`: refine `thing.is.of(type)` by a Boolean
test; the failure carries the value and the rendered custom message. -/
def predicate (type : String) (p : JSValue → Bool) (template : JSValue → String) :
    Parser JSValue ErrMsg JSValue :=
  ⟨fun o => ((thingIsOf type).runParser o).bind fun r =>
    .val (Efp.chain (fun s => if p s then .right s else .left (.predicateFailed s (template s))) r)⟩

/-- The three declared kinds of a `field.FieldParser`. -/
inductive FieldKind : Type
  | required : FieldKind
  | optional : FieldKind
  | dependent : FieldKind
deriving Repr

/-- `field.FieldParser`: a tagged record whose `run` member turns a field
name into a parser over the enclosing object. -/
structure FieldParser : Type where
  type : FieldKind
  run : String → Parser JSValue ErrMsg JSValue

/-- `field.optional(parser)`: when `field in o` delegate to the inner
parser on the member's value, otherwise succeed with `undefined`; the `in`
test itself can throw (`o` null or a primitive). -/
def fieldOptional (parser : Parser JSValue ErrMsg JSValue) : FieldParser where
  type := .optional
  run := fun field => ⟨fun o =>
    (inOp field o).bind fun b =>
      if b then parser.runParser (getField o field)
      else .val (.right .undefined)⟩

/-- `field.required(parser)`: when `field in o` delegate to the inner
parser on the member's value, otherwise fail with the `does not contain
field` error. -/
def fieldRequired (parser : Parser JSValue ErrMsg JSValue) : FieldParser where
  type := .required
  run := fun field => ⟨fun o =>
    (inOp field o).bind fun b =>
      if b then parser.runParser (getField o field)
      else .val (.left (.doesNotContainField o field))⟩

/-- The field loop of `object.has`: run each field parser against `obj_`
in declared order, stop at the first failure and return it unchanged,
otherwise collect each validated value into the projected result object. -/
def hasLoop (obj_ : JSValue) :
    List (String × FieldParser) → List (String × JSValue) → JSRun (Either ErrMsg JSValue)
  | [], acc => .val (.right (.obj acc))
  | (name, fp) :: rest, acc =>
      ((fp.run name).runParser obj_).bind fun r =>
        match r with
        | .left e => .val (.left e)
        | .right v => hasLoop obj_ rest (acc ++ [(name, v)])

/-- `object.has(fieldParsers)`: `chain(thing.is.object, ...)` followed by
the declared-order field loop; the declared field map is modelled as an
association list in declaration order. -/
def objectHas (fieldParsers : List (String × FieldParser)) : Parser JSValue ErrMsg JSValue :=
  chain thingIsObject (fun ob => ⟨fun _ => hasLoop ob fieldParsers []⟩)

/-- The `x in fieldParsers` test of `object.just`: `fieldParsers` is a
plain object literal, so the JavaScript `in` operator sees the declared
keys and every `Object.prototype` property. -/
def inFieldParsers (x : String) (fieldParsers : List (String × FieldParser)) : Bool :=
  (fieldParsers.map Prod.fst).contains x || objectProtoProps.contains x

/-- `difference(eqString)(thisKeys, parserKeys)`: the members of the first
key set not present in the second, in insertion order. -/
def setDifference (thisKeys parserKeys : List String) : List String :=
  thisKeys.filter (fun k => !(parserKeys.contains k))

/-- `object.just(fieldParsers)`: run `has`; on success compute the own
keys of the raw input minus the declared keys and fail with the
`has extra fields` error unless every leftover key passes the
`x in fieldParsers` test (which also accepts `Object.prototype` names). -/
def objectJust (fieldParsers : List (String × FieldParser)) : Parser JSValue ErrMsg JSValue :=
  ⟨fun o => ((objectHas fieldParsers).runParser o).bind fun r =>
    match r with
    | .left e => .val (.left e)
    | .right all =>
        (objectKeys o).bind fun thisKeys =>
          let parserKeys := fieldParsers.map Prod.fst
          let diff := setDifference thisKeys parserKeys
          if diff.all (fun x => inFieldParsers x fieldParsers) then .val (.right all)
          else .val (.left (.extraFields all parserKeys diff))⟩

/-- Running an element parser over every element of an array, left to
right, as `o.map(each => parser.runParser(each))` does; a thrown error in
any element run propagates. -/
def runAll (parser : Parser JSValue E JSValue) :
    List JSValue → JSRun (List (Either E JSValue))
  | [] => .val []
  | v :: rest =>
      (parser.runParser v).bind fun r =>
        (runAll parser rest).bind fun rs => .val (r :: rs)

/-- The errors of the failing element runs, in element order
(`results.filter(isFailure)` followed by reading each `.left`). -/
def leftsOf : List (Either E R) → List E
  | [] => []
  | .left e :: rest => e :: leftsOf rest
  | .right _ :: rest => leftsOf rest

/-- `array.of(parser)` from the main iteration (`part_001`, first file):
non-arrays fail with the `is not an array` error; when any element fails
the error carries every failing element's error; when all succeed the RAW
input array is returned (`right(o)` in the source — not the list of
validated element results). -/
def arrayOf (parser : Parser JSValue ErrMsg JSValue) : Parser JSValue ErrMsg JSValue :=
  ⟨fun o =>
    match o with
    | .arr es =>
        (runAll parser es).bind fun results =>
          match leftsOf results with
          | [] => .val (.right (.arr es))
          | ls => .val (.left (.invalidArray (.arr es) ls))
    | v => .val (.left (.notAnArray v))⟩

/-- `array.ArrayParserError` from `src/unnamed/part_000` (first file): the
tagged error union of its `array.of`; `elementMisMatch` carries the raw
array and `results[0]`, the first failing element's `Either` result. -/
inductive P0ArrayError (E : Type) : Type
  | notAnArray : JSValue → P0ArrayError E
  | elementMisMatch : List JSValue → Either E JSValue → P0ArrayError E
deriving Repr

/-- `array.of(parser)` from `src/unnamed/part_000` (first file): same
shape as the main iteration's, but the failure is the tagged
`ElementMisMatch` carrying the first failing result; success again
returns the RAW input array. -/
def p0ArrayOf (parser : Parser JSValue E JSValue) :
    Parser JSValue (P0ArrayError E) JSValue :=
  ⟨fun o =>
    match o with
    | .arr es =>
        (runAll parser es).bind fun results =>
          match results.filter Either.isLeftB with
          | [] => .val (.right (.arr es))
          | f :: _ => .val (.left (.elementMisMatch es f))
    | v => .val (.left (.notAnArray v))⟩

mutual

/-- Nesting depth of a JavaScript value: atoms have depth 0, objects and
arrays are one deeper than their deepest member. -/
def depthJS : JSValue → Nat
  | .obj fs => 1 + depthFields fs
  | .arr es => 1 + depthList es
  | _ => 0

/-- Depth of the deepest field value of an object. -/
def depthFields : List (String × JSValue) → Nat
  | [] => 0
  | (_, v) :: rest => max (depthJS v) (depthFields rest)

/-- Depth of the deepest element of an array. -/
def depthList : List JSValue → Nat
  | [] => 0
  | v :: rest => max (depthJS v) (depthList rest)

end

/-- One unfolding of the self-referential rose-tree schema from the
`recursive` documentation example:
`object.just({value: field.required(thing.is.string),
children: field.required(array.of(self))})`, with the self-reference
abstracted as `p`. -/
def roseStep (p : Parser JSValue ErrMsg JSValue) : Parser JSValue ErrMsg JSValue :=
  objectJust
    [("value", fieldRequired thingIsString),
     ("children", fieldRequired (arrayOf p))]

/-- The rose-tree validator with an explicit recursion budget: `n + 1`
budget performs one `roseStep` whose self-reference has budget `n`.
Exhausting the budget is a distinguished outcome; the stability theorem
shows any budget exceeding the input's depth gives the same result, which
is exactly how the thunk-based `recursive` definition unwinds on finite
input. -/
def roseParser : Nat → Parser JSValue ErrMsg JSValue
  | 0 => ⟨fun _ => .thrown "recursion budget exhausted"⟩
  | n + 1 => roseStep (roseParser n)

/-- C1, counterexample. The claim states that `object.just` fails with an
`ExtraFields` error for EVERY undeclared own field name, "including names
that coincide with inherited object properties such as `toString`". It is
false: on `{r: 1, toString: 4}` the schema `object.just({r})` SUCCEEDS,
because the leftover key is filtered through `x in fieldParsers`, and
`"toString" in {...}` is true for every plain object via
`Object.prototype`. -/
theorem just_accepts_undeclared_toString_field :
    (objectJust [("r", fieldRequired thingIsNumber)]).runParser
        (JSValue.obj [("r", JSValue.num 1), ("toString", JSValue.num 4)])
      = JSRun.val (Either.right (JSValue.obj [("r", JSValue.num 1)]))
    ∧ (["r"].contains "toString") = false := by
  constructor
  · rfl
  · rfl

/-- C2, counterexample. The claim states that when every element succeeds,
`array.of(p)` succeeds with the projected sequence of validated element
results ("not the raw input array passed through"). It is false: with the
transforming element validator `map(thing.is.number, n ↦ n + 1)` on the
input `[1]`, the projection would be `[2]`, but the code returns
`right(o)` — the raw input array `[1]`. -/
theorem arrayOf_returns_raw_not_projected :
    ((p0ArrayOf (map thingIsNumber
        (fun v => match v with | .num n => JSValue.num (n + 1) | x => x))).runParser
          (JSValue.arr [JSValue.num 1])
      = JSRun.val (Either.right (JSValue.arr [JSValue.num 1])))
    ∧ JSValue.arr [JSValue.num 1] ≠ JSValue.arr [JSValue.num 2] := by
  constructor
  · rfl
  · intro h
    simp at h

/-- C4. The claim (and the spec's invariant) states that a validator never
throws: nonconformance is always an `Err`, and in particular
`object.has({a: field.required(...)})` applied to `null` returns `Err`.
The code contradicts it: `typeof null === "object"` passes the object
pre-check, after which `field.required` evaluates `"a" in null`, which
throws a `TypeError`; the same happens for the bare field accessor. This
theorem evaluates the code at the failing input. -/
theorem has_required_on_null_throws :
    ((objectHas [("a", fieldRequired thingIsString)]).runParser JSValue.null
      = JSRun.thrown "TypeError: cannot use in operator")
    ∧ (((fieldRequired thingIsString).run "a").runParser JSValue.null
      = JSRun.thrown "TypeError: cannot use in operator")
    ∧ ((objectHas [("a", fieldRequired thingIsString)]).runParser JSValue.undefined
      = JSRun.val (Either.left (ErrMsg.notOfType JSValue.undefined "object"))) := by
  exact ⟨rfl, rfl, rfl⟩

/-- C10. `thing.is.of("object")` returns `Ok(null)` on `null` because
`typeof null === "object"`; consequently `null` passes the object-category
pre-check of `object.has`/`object.just` and reaches the per-field stage:
with no declared fields the loop succeeds on `null`, and with a declared
required field the observed outcome is the field accessor's own
(`in`-operator) behaviour on `null`, not a `TypeMismatch` failure of the
pre-check. -/
theorem typeof_null_passes_object_precheck :
    ((thingIsOf "object").runParser JSValue.null
      = JSRun.val (Either.right JSValue.null))
    ∧ ((objectHas []).runParser JSValue.null
      = JSRun.val (Either.right (JSValue.obj [])))
    ∧ ((objectHas [("a", fieldRequired thingIsString)]).runParser JSValue.null
      = ((fieldRequired thingIsString).run "a").runParser JSValue.null)
    ∧ ((objectJust []).runParser JSValue.null
      = JSRun.thrown "TypeError: Object.keys on null or undefined") := by
  exact ⟨rfl, rfl, rfl, rfl⟩

/-- C6. `chain(v, f)` short-circuits: when `v` yields `Err(e)` on input
`o`, `chain(v, f)` yields the same `Err(e)` (so `f`'s parser plays no
part in the outcome); when `v` yields `Ok(a)`, `chain(v, f)` behaves as
`f(a)` run on the same original input `o`. -/
theorem chain_short_circuit_same_input {A B E O : Type}
    (v : Parser A E O) (f : A → Parser B E O) (o : O) :
    (∀ e : E, v.runParser o = .val (.left e) →
        (chain v f).runParser o = .val (.left e))
    ∧ (∀ a : A, v.runParser o = .val (.right a) →
        (chain v f).runParser o = (f a).runParser o) := by
  constructor
  · intro e h
    simp [chain, h, JSRun.bind]
  · intro a h
    simp [chain, h, JSRun.bind]

/-- C6, witness. The short-circuit equation at `fail` on a number input,
and the delegation equation at `succeed`, both concrete. -/
theorem chain_short_circuit_same_input_witness :
    ((chain (fail (ErrMsg.notAnArray JSValue.null) : Parser JSValue ErrMsg JSValue)
        (fun _ => thingIsString)).runParser (JSValue.num 0)
      = JSRun.val (Either.left (ErrMsg.notAnArray JSValue.null)))
    ∧ ((chain (succeed (JSValue.num 7) : Parser JSValue ErrMsg JSValue)
        (fun a => (of a : Parser JSValue ErrMsg JSValue))).runParser (JSValue.str "s")
      = (of (JSValue.num 7) : Parser JSValue ErrMsg JSValue).runParser (JSValue.str "s")) :=
  ⟨(chain_short_circuit_same_input _ _ _).1 _ rfl,
   (chain_short_circuit_same_input _ _ _).2 _ rfl⟩

/-- C9. `parserFunctor.map` satisfies the functor laws run-wise: mapping
the identity does not change the outcome, mapping `f` then `g` is mapping
`g ∘ f`, and an `Err(e)` outcome of `v` propagates through `map`
unchanged. -/
theorem map_functor_laws {A B C E O : Type}
    (v : Parser A E O) (f : A → B) (g : B → C) (o : O) :
    ((map v (fun a => a)).runParser o = v.runParser o)
    ∧ ((map (map v f) g).runParser o = (map v (fun a => g (f a))).runParser o)
    ∧ (∀ e : E, v.runParser o = .val (.left e) →
        (map v f).runParser o = .val (.left e)) := by
  refine ⟨?_, ?_, ?_⟩
  · cases h : v.runParser o with
    | thrown m => simp [map, h, JSRun.bind]
    | val r => cases r <;> simp [map, h, JSRun.bind, Efp.map]
  · cases h : v.runParser o with
    | thrown m => simp [map, h, JSRun.bind]
    | val r => cases r <;> simp [map, h, JSRun.bind, Efp.map]
  · intro e h
    simp [map, h, JSRun.bind, Efp.map]

/-- C9, witness. The three equations at a concrete parser, transformation
and input; the error-propagation part at a concrete failing parser. -/
theorem map_functor_laws_witness :
    ((map thingIsNumber (fun a => a)).runParser (JSValue.num 3)
      = thingIsNumber.runParser (JSValue.num 3))
    ∧ ((map (map thingIsNumber (fun a => a)) (fun a => a)).runParser (JSValue.num 3)
      = (map thingIsNumber (fun a => a)).runParser (JSValue.num 3))
    ∧ ((map (fail (ErrMsg.notAnArray JSValue.null) : Parser JSValue ErrMsg JSValue)
          (fun a : JSValue => a)).runParser (JSValue.num 3)
      = JSRun.val (Either.left (ErrMsg.notAnArray JSValue.null))) :=
  ⟨(map_functor_laws thingIsNumber (fun a => a) (fun a => a) (JSValue.num 3)).1,
   (map_functor_laws thingIsNumber (fun a => a) (fun a => a) (JSValue.num 3)).2.1,
   (map_functor_laws (fail (ErrMsg.notAnArray JSValue.null) : Parser JSValue ErrMsg JSValue)
      (fun a => a) (fun a : JSValue => a) (JSValue.num 3)).2.2 _ rfl⟩

/-- C3. `or(v1, v2)` runs both parsers on the same input (so a second
parser that throws is reached even when the first succeeded), succeeds
with `v1`'s result when `v1` succeeds (left-biased), otherwise with
`v2`'s result when `v2` succeeds, and when both fail the error is the
combined merge of `v1`'s and `v2`'s errors. -/
theorem or_alternative_semantics {T B : Type}
    (v1 v2 : Parser T ErrMsg B) (o : B) :
    (∀ a, v1.runParser o = .val (.right a) → ∀ r2, v2.runParser o = .val r2 →
        (or v1 v2).runParser o = .val (.right a))
    ∧ (∀ e1 b, v1.runParser o = .val (.left e1) → v2.runParser o = .val (.right b) →
        (or v1 v2).runParser o = .val (.right b))
    ∧ (∀ e1 e2, v1.runParser o = .val (.left e1) → v2.runParser o = .val (.left e2) →
        (or v1 v2).runParser o = .val (.left (.combined e1 e2)))
    ∧ (∀ a m, v1.runParser o = .val (.right a) → v2.runParser o = .thrown m →
        (or v1 v2).runParser o = .thrown m) := by
  refine ⟨?_, ?_, ?_, ?_⟩
  · intro a h1 r2 h2
    simp [or, h1, h2, JSRun.bind]
  · intro e1 b h1 h2
    simp [or, h1, h2, JSRun.bind]
  · intro e1 e2 h1 h2
    simp [or, h1, h2, JSRun.bind]
  · intro a m h1 h2
    simp [or, h1, h2, JSRun.bind]

/-- C3, witness. `or(thing.is.string, thing.is.number)` on `true` fails
with the merge of the two `TypeMismatch` errors (one naming "string", one
naming "number"); on `"x"` and on `5` it succeeds. -/
theorem or_alternative_semantics_witness :
    ((or thingIsString thingIsNumber).runParser (JSValue.bool true)
      = JSRun.val (Either.left (ErrMsg.combined
          (ErrMsg.notOfType (JSValue.bool true) "string")
          (ErrMsg.notOfType (JSValue.bool true) "number"))))
    ∧ ((or thingIsString thingIsNumber).runParser (JSValue.str "x")
      = JSRun.val (Either.right (JSValue.str "x")))
    ∧ ((or thingIsString thingIsNumber).runParser (JSValue.num 5)
      = JSRun.val (Either.right (JSValue.num 5))) :=
  ⟨(or_alternative_semantics thingIsString thingIsNumber (JSValue.bool true)).2.2.1
      _ _ rfl rfl,
   (or_alternative_semantics thingIsString thingIsNumber (JSValue.str "x")).1
      _ rfl _ rfl,
   (or_alternative_semantics thingIsString thingIsNumber (JSValue.num 5)).2.1
      _ _ rfl rfl⟩

/-- Object-like values: the ones on which the JavaScript `in` operator
does not throw. -/
def isObjectLike : JSValue → Bool
  | .obj _ => true
  | .arr _ => true
  | .func _ => true
  | _ => false

/-- C7. On an object-like input, `field.required(v).run(n)` fails with the
missing-field error exactly when `n` is not a member (own or inherited) of
the input — so a field explicitly set to `undefined` is present — and when
`n` is a member it returns `v`'s result on the member's value unchanged;
`field.optional(v).run(n)` behaves identically when `n` is a member and
succeeds with `undefined` otherwise. -/
theorem field_accessor_membership_semantics
    (p : Parser JSValue ErrMsg JSValue) (n : String) (o : JSValue)
    (h : isObjectLike o = true) :
    (((fieldRequired p).run n).runParser o
      = if memberB n o then p.runParser (getField o n)
        else .val (.left (.doesNotContainField o n)))
    ∧ (((fieldOptional p).run n).runParser o
      = if memberB n o then p.runParser (getField o n)
        else .val (.right .undefined)) := by
  cases o <;> simp_all [isObjectLike, fieldRequired, fieldOptional, inOp, JSRun.bind]

/-- C7, witness. A field explicitly set to `undefined` counts as present
(the inner validator receives `undefined`); an absent field makes
`required` fail with the missing-field error and `optional` succeed with
`undefined`; an inherited name such as `toString` counts as a member. -/
theorem field_accessor_membership_semantics_witness :
    (((fieldRequired (thingIsOf "undefined")).run "a").runParser
        (JSValue.obj [("a", JSValue.undefined)])
      = JSRun.val (Either.right JSValue.undefined))
    ∧ (((fieldRequired thingIsNumber).run "a").runParser (JSValue.obj [])
      = JSRun.val (Either.left (ErrMsg.doesNotContainField (JSValue.obj []) "a")))
    ∧ (((fieldOptional thingIsNumber).run "a").runParser (JSValue.obj [])
      = JSRun.val (Either.right JSValue.undefined))
    ∧ (memberB "toString" (JSValue.obj []) = true) := by
  refine ⟨?_, ?_, ?_, rfl⟩
  · have h := (field_accessor_membership_semantics (thingIsOf "undefined") "a"
      (JSValue.obj [("a", JSValue.undefined)]) rfl).1
    rw [h]
    rfl
  · have h := (field_accessor_membership_semantics thingIsNumber "a"
      (JSValue.obj []) rfl).1
    rw [h]
    rfl
  · have h := (field_accessor_membership_semantics thingIsNumber "a"
      (JSValue.obj []) rfl).2
    rw [h]
    rfl

/-- Skipping an initial segment of all-succeeding field parsers in the
`object.has` loop only extends the accumulated projection. -/
lemma hasLoop_append_ok (o : JSValue) (pre rest : List (String × FieldParser))
    (acc : List (String × JSValue))
    (h : ∀ x ∈ pre, ∃ v, (x.2.run x.1).runParser o = .val (.right v)) :
    ∃ acc2, hasLoop o (pre ++ rest) acc = hasLoop o rest (acc ++ acc2) := by
  induction pre generalizing acc with
  | nil => exact ⟨[], by simp⟩
  | cons hd tl ih =>
    cases hd with
    | mk name fp =>
      obtain ⟨v, hv⟩ := h (name, fp) (List.mem_cons_self _ _)
      have hv' : (fp.run name).runParser o = .val (.right v) := hv
      obtain ⟨acc2, ha⟩ := ih (acc ++ [(name, v)])
        (fun x hx => h x (List.mem_cons_of_mem _ hx))
      refine ⟨(name, v) :: acc2, ?_⟩
      simp only [List.cons_append, hasLoop]
      rw [hv']
      simp only [JSRun.bind, List.append_eq]
      rw [ha]
      simp

/-- When every field parser succeeds (with the values recorded in `rs`),
the `object.has` loop succeeds with the projected object. -/
lemma hasLoop_all_ok (o : JSValue) (fps : List (String × FieldParser))
    (rs : List (String × JSValue)) (acc : List (String × JSValue))
    (h : List.Forall₂
      (fun nf nv => nf.1 = nv.1 ∧ (nf.2.run nf.1).runParser o = .val (.right nv.2))
      fps rs) :
    hasLoop o fps acc = .val (.right (.obj (acc ++ rs))) := by
  induction h generalizing acc with
  | nil => simp [hasLoop]
  | cons hr hrest ih =>
    rename_i nf nv tlf tlv
    cases nf with
    | mk name fp =>
      cases nv with
      | mk name2 v =>
        obtain ⟨hn, hv⟩ := hr
        have hn' : name = name2 := hn
        subst hn'
        have hv' : (fp.run name).runParser o = .val (.right v) := hv
        simp only [hasLoop]
        rw [hv']
        simp only [JSRun.bind]
        rw [ih (acc ++ [(name, v)])]
        simp

/-- C5. `object.has(F)` first checks the input is of the `"object"`
`typeof` category, failing with the `TypeMismatch` error otherwise; on an
object-category input it runs the field accessors in declared order,
stopping at the first failing field and returning that field's error
unchanged; and when every field validates it succeeds with a newly built
object holding each field's validated value in declared order (a
projection, not the raw input). -/
theorem has_precheck_failfast_projection
    (fps : List (String × FieldParser)) (o : JSValue) :
    (typeofJS o ≠ "object" →
      (objectHas fps).runParser o = .val (.left (.notOfType o "object")))
    ∧ (typeofJS o = "object" →
        ∀ pre name fp rest e, fps = pre ++ (name, fp) :: rest →
        (∀ x ∈ pre, ∃ v, (x.2.run x.1).runParser o = .val (.right v)) →
        (fp.run name).runParser o = .val (.left e) →
        (objectHas fps).runParser o = .val (.left e))
    ∧ (typeofJS o = "object" →
        ∀ rs, List.Forall₂
          (fun nf nv => nf.1 = nv.1 ∧ (nf.2.run nf.1).runParser o = .val (.right nv.2))
          fps rs →
        (objectHas fps).runParser o = .val (.right (.obj rs))) := by
  refine ⟨?_, ?_, ?_⟩
  · intro h
    have hIf : thingIsObject.runParser o = .val (.left (.notOfType o "object")) := by
      simp [thingIsObject, thingIsOf, h]
    simp [objectHas, chain, hIf, JSRun.bind]
  · intro h pre name fp rest e hsplit hpre hfail
    have hIf : thingIsObject.runParser o = .val (.right o) := by
      simp [thingIsObject, thingIsOf, h]
    obtain ⟨acc2, ha⟩ := hasLoop_append_ok o pre ((name, fp) :: rest) [] hpre
    simp only [objectHas, chain, hIf, JSRun.bind, hsplit]
    rw [ha]
    simp only [hasLoop]
    rw [hfail]
    simp [JSRun.bind]
  · intro h rs hall
    have hIf : thingIsObject.runParser o = .val (.right o) := by
      simp [thingIsObject, thingIsOf, h]
    have hok := hasLoop_all_ok o fps rs [] hall
    simp only [objectHas, chain, hIf, JSRun.bind]
    rw [hok]
    simp

/-- C5, witness. A non-object input fails the pre-check with the
`TypeMismatch` error; `object.has({a: required(...), b: required(...)})`
on `{}` (an input missing both fields) fails naming field `a`, never `b`;
and a passing input yields the projected object. -/
theorem has_precheck_failfast_projection_witness :
    ((objectHas [("a", fieldRequired thingIsString)]).runParser (JSValue.bool true)
      = JSRun.val (Either.left (ErrMsg.notOfType (JSValue.bool true) "object")))
    ∧ ((objectHas [("a", fieldRequired thingIsString), ("b", fieldRequired thingIsString)]).runParser
        (JSValue.obj [])
      = JSRun.val (Either.left (ErrMsg.doesNotContainField (JSValue.obj []) "a")))
    ∧ ((objectHas [("a", fieldRequired thingIsString)]).runParser
        (JSValue.obj [("a", JSValue.str "x"), ("b", JSValue.num 1)])
      = JSRun.val (Either.right (JSValue.obj [("a", JSValue.str "x")]))) := by
  refine ⟨?_, ?_, ?_⟩
  · exact (has_precheck_failfast_projection [("a", fieldRequired thingIsString)]
      (JSValue.bool true)).1 (by decide)
  · exact (has_precheck_failfast_projection
      [("a", fieldRequired thingIsString), ("b", fieldRequired thingIsString)]
      (JSValue.obj [])).2.1 rfl [] "a"
      (fieldRequired thingIsString) [("b", fieldRequired thingIsString)] _
      rfl (by intro x hx; cases hx) rfl
  · exact (has_precheck_failfast_projection [("a", fieldRequired thingIsString)]
      (JSValue.obj [("a", JSValue.str "x"), ("b", JSValue.num 1)])).2.2 rfl
      [("a", JSValue.str "x")]
      (List.Forall₂.cons ⟨rfl, rfl⟩ List.Forall₂.nil)

/-- C1, amended. On an object input, `object.just(F)` first behaves as
`object.has(F)` (failures propagate unchanged); when `has` succeeds it
computes the input's own field names minus the declared accessor names; if
every leftover name passes the `x in fieldParsers` test — i.e. is a
declared name or an inherited `Object.prototype` property name such as
`"toString"` — it succeeds with `has`'s projected result, and otherwise
it fails with the `ExtraFields` error naming ALL own field names not
among the declared names. (The unamended claim — rejection of every
undeclared own name including `Object.prototype` names — is refuted by
`just_accepts_undeclared_toString_field`.) -/
theorem just_extra_fields_characterization
    (fps : List (String × FieldParser)) (fields : List (String × JSValue)) :
    (∀ e, (objectHas fps).runParser (JSValue.obj fields) = .val (.left e) →
        (objectJust fps).runParser (JSValue.obj fields) = .val (.left e))
    ∧ (∀ all, (objectHas fps).runParser (JSValue.obj fields) = .val (.right all) →
        (((setDifference (fields.map Prod.fst) (fps.map Prod.fst)).all
            (fun x => inFieldParsers x fps) = true →
          (objectJust fps).runParser (JSValue.obj fields) = .val (.right all))
        ∧ ((setDifference (fields.map Prod.fst) (fps.map Prod.fst)).all
            (fun x => inFieldParsers x fps) = false →
          (objectJust fps).runParser (JSValue.obj fields)
            = .val (.left (.extraFields all (fps.map Prod.fst)
                (setDifference (fields.map Prod.fst) (fps.map Prod.fst))))))) := by
  constructor
  · intro e h
    simp [objectJust, h, JSRun.bind]
  · intro all h
    constructor
    · intro hall
      simp only [objectJust, h, JSRun.bind, objectKeys]
      rw [hall]
      rfl
    · intro hall
      simp only [objectJust, h, JSRun.bind, objectKeys]
      rw [hall]
      rfl

/-- C1, witness. The claim's own examples: `object.just({r, g, b})` on
`{r:1, g:2, b:3, extra:4}` fails with the `ExtraFields` error naming
`extra`, and on `{r:1, g:2, b:3}` succeeds with the projected result; a
`has`-failure (a missing declared field) propagates unchanged. -/
theorem just_extra_fields_characterization_witness :
    ((objectJust [("r", fieldRequired thingIsNumber), ("g", fieldRequired thingIsNumber),
        ("b", fieldRequired thingIsNumber)]).runParser
        (JSValue.obj [("r", JSValue.num 1), ("g", JSValue.num 2), ("b", JSValue.num 3),
          ("extra", JSValue.num 4)])
      = JSRun.val (Either.left (ErrMsg.extraFields
          (JSValue.obj [("r", JSValue.num 1), ("g", JSValue.num 2), ("b", JSValue.num 3)])
          ["r", "g", "b"] ["extra"])))
    ∧ ((objectJust [("r", fieldRequired thingIsNumber), ("g", fieldRequired thingIsNumber),
        ("b", fieldRequired thingIsNumber)]).runParser
        (JSValue.obj [("r", JSValue.num 1), ("g", JSValue.num 2), ("b", JSValue.num 3)])
      = JSRun.val (Either.right
          (JSValue.obj [("r", JSValue.num 1), ("g", JSValue.num 2), ("b", JSValue.num 3)])))
    ∧ ((objectJust [("r", fieldRequired thingIsNumber)]).runParser (JSValue.obj [])
      = JSRun.val (Either.left (ErrMsg.doesNotContainField (JSValue.obj []) "r"))) := by
  refine ⟨?_, ?_, ?_⟩
  · exact ((just_extra_fields_characterization
      [("r", fieldRequired thingIsNumber), ("g", fieldRequired thingIsNumber),
        ("b", fieldRequired thingIsNumber)]
      [("r", JSValue.num 1), ("g", JSValue.num 2), ("b", JSValue.num 3),
        ("extra", JSValue.num 4)]).2 _ rfl).2 rfl
  · exact ((just_extra_fields_characterization
      [("r", fieldRequired thingIsNumber), ("g", fieldRequired thingIsNumber),
        ("b", fieldRequired thingIsNumber)]
      [("r", JSValue.num 1), ("g", JSValue.num 2), ("b", JSValue.num 3)]).2 _ rfl).1 rfl
  · exact (just_extra_fields_characterization
      [("r", fieldRequired thingIsNumber)] []).1 _ rfl

/-- The element runs collected by `runAll` are exactly the element-wise
outcomes of the element parser. -/
lemma runAll_forall₂ {E : Type} (p : Parser JSValue E JSValue)
    (es : List JSValue) (results : List (Either E JSValue))
    (h : runAll p es = .val results) :
    List.Forall₂ (fun e r => p.runParser e = .val r) es results := by
  induction es generalizing results with
  | nil =>
    simp only [runAll] at h
    cases h
    exact List.Forall₂.nil
  | cons hd tl ih =>
    simp only [runAll] at h
    cases hr : p.runParser hd with
    | thrown m => rw [hr] at h; simp [JSRun.bind] at h
    | val r =>
      rw [hr] at h
      simp only [JSRun.bind] at h
      cases hrest : runAll p tl with
      | thrown m => rw [hrest] at h; simp [JSRun.bind] at h
      | val rs =>
        rw [hrest] at h
        simp only [JSRun.bind] at h
        cases h
        exact List.Forall₂.cons hr (ih rs hrest)

/-- C2, amended. `array.of(p)` (the `part_000` iteration with the tagged
error union): a non-array input fails with the `NotAnArray` error; when
the per-element runs complete, they are exactly `p`'s outcomes on the
elements in order; if any element fails, the whole parse fails with
`ElementMisMatch` carrying the raw array and the FIRST failing element's
result; and if every element succeeds it succeeds with the RAW input
array (per-element transformations are NOT reflected in the output — the
unamended projection claim is refuted by
`arrayOf_returns_raw_not_projected`). -/
theorem p0_arrayOf_characterization {E : Type}
    (p : Parser JSValue E JSValue) (o : JSValue) :
    ((∀ es, o ≠ .arr es) →
      (p0ArrayOf p).runParser o = .val (.left (.notAnArray o)))
    ∧ (∀ es results, o = .arr es → runAll p es = .val results →
        (List.Forall₂ (fun e r => p.runParser e = .val r) es results
        ∧ (results.filter Either.isLeftB = [] →
            (p0ArrayOf p).runParser o = .val (.right (.arr es)))
        ∧ (∀ f rest, results.filter Either.isLeftB = f :: rest →
            (p0ArrayOf p).runParser o = .val (.left (.elementMisMatch es f))))) := by
  constructor
  · intro h
    cases o with
    | arr es => exact absurd rfl (h es)
    | null => rfl
    | undefined => rfl
    | bool b => rfl
    | num n => rfl
    | str s => rfl
    | func f => rfl
    | obj fs => rfl
  · intro es results ho hrun
    subst ho
    refine ⟨runAll_forall₂ p es results hrun, ?_, ?_⟩
    · intro hfil
      simp only [p0ArrayOf, hrun, JSRun.bind]
      rw [hfil]
    · intro f rest hfil
      simp only [p0ArrayOf, hrun, JSRun.bind]
      rw [hfil]

/-- C2, witness. The claim's examples: the string validator over
`["a","b",3]` fails with `ElementMisMatch` whose first failing result is
the `TypeMismatch` for the element `3`; over `["a","b","c"]` it succeeds
with the same three strings in order; and a non-array input fails with
the `NotAnArray` error. -/
theorem p0_arrayOf_characterization_witness :
    ((p0ArrayOf thingIsString).runParser
        (JSValue.arr [JSValue.str "a", JSValue.str "b", JSValue.num 3])
      = JSRun.val (Either.left (P0ArrayError.elementMisMatch
          [JSValue.str "a", JSValue.str "b", JSValue.num 3]
          (Either.left (ErrMsg.notOfType (JSValue.num 3) "string")))))
    ∧ ((p0ArrayOf thingIsString).runParser
        (JSValue.arr [JSValue.str "a", JSValue.str "b", JSValue.str "c"])
      = JSRun.val (Either.right
          (JSValue.arr [JSValue.str "a", JSValue.str "b", JSValue.str "c"])))
    ∧ ((p0ArrayOf thingIsString).runParser (JSValue.num 5)
      = JSRun.val (Either.left (P0ArrayError.notAnArray (JSValue.num 5)))) := by
  refine ⟨?_, ?_, ?_⟩
  · exact (((p0_arrayOf_characterization thingIsString
      (JSValue.arr [JSValue.str "a", JSValue.str "b", JSValue.num 3])).2
      [JSValue.str "a", JSValue.str "b", JSValue.num 3]
      [Either.right (JSValue.str "a"), Either.right (JSValue.str "b"),
        Either.left (ErrMsg.notOfType (JSValue.num 3) "string")]
      rfl rfl).2.2) _ _ rfl
  · exact (((p0_arrayOf_characterization thingIsString
      (JSValue.arr [JSValue.str "a", JSValue.str "b", JSValue.str "c"])).2
      [JSValue.str "a", JSValue.str "b", JSValue.str "c"]
      [Either.right (JSValue.str "a"), Either.right (JSValue.str "b"),
        Either.right (JSValue.str "c")]
      rfl rfl).2.1) rfl
  · exact (p0_arrayOf_characterization thingIsString (JSValue.num 5)).1
      (by intro es h; cases h)

/-- A field value of an object is bounded by the object's field depth. -/
lemma depthFields_mem (fs : List (String × JSValue)) (pr : String × JSValue)
    (h : pr ∈ fs) : depthJS pr.2 ≤ depthFields fs := by
  induction fs with
  | nil => cases h
  | cons hd tl ih =>
    cases hd with
    | mk n w =>
      rcases List.mem_cons.mp h with h | h
      · subst h
        simp [depthFields]
      · exact le_trans (ih h) (by simp [depthFields])

/-- A field value of an object is strictly shallower than the object. -/
lemma depth_field_lt (fs : List (String × JSValue)) (pr : String × JSValue)
    (h : pr ∈ fs) : depthJS pr.2 < depthJS (.obj fs) := by
  have := depthFields_mem fs pr h
  simp only [depthJS]
  omega

/-- An element of an array is bounded by the array's element depth. -/
lemma depthList_mem (es : List JSValue) (e : JSValue) (h : e ∈ es) :
    depthJS e ≤ depthList es := by
  induction es with
  | nil => cases h
  | cons hd tl ih =>
    rcases List.mem_cons.mp h with h | h
    · subst h
      simp [depthList]
    · exact le_trans (ih h) (by simp [depthList])

/-- An element of an array is strictly shallower than the array. -/
lemma depth_elem_lt (es : List JSValue) (e : JSValue) (h : e ∈ es) :
    depthJS e < depthJS (.arr es) := by
  have := depthList_mem es e h
  simp only [depthJS]
  omega

/-- `List.getD` yields a member of the list or the default. -/
lemma getD_mem_or {α : Type} (l : List α) (i : Nat) (d x : α)
    (h : l.getD i d = x) : x ∈ l ∨ x = d := by
  induction l generalizing i with
  | nil =>
    right
    simpa [List.getD] using h.symm
  | cons hd tl ih =>
    cases i with
    | zero =>
      left
      rw [List.getD_cons_zero] at h
      exact h ▸ List.mem_cons_self _ _
    | succ n =>
      rw [List.getD_cons_succ] at h
      rcases ih n h with hm | hd'
      · exact Or.inl (List.mem_cons_of_mem _ hm)
      · exact Or.inr hd'

/-- Whatever member access digs out of a value, any element of an array so
obtained lies at least two levels below the value itself. -/
lemma getField_depth (v : JSValue) (name : String) (es : List JSValue)
    (e : JSValue) (hes : getField v name = .arr es) (he : e ∈ es) :
    depthJS e + 2 ≤ depthJS v := by
  have hee : depthJS e < depthJS (.arr es) := depth_elem_lt es e he
  cases v with
  | obj fs =>
    simp only [getField] at hes
    cases hf : fs.find? (fun p => p.1 == name) with
    | some pr =>
      rw [hf] at hes
      have hes' : pr.2 = JSValue.arr es := hes
      have hmem : pr ∈ fs := List.mem_of_find?_eq_some hf
      have h1 : depthJS pr.2 < depthJS (.obj fs) := depth_field_lt fs pr hmem
      rw [hes'] at h1
      omega
    | none =>
      rw [hf] at hes
      have hes' : (if objectProtoProps.contains name = true
          then JSValue.func name else JSValue.undefined) = JSValue.arr es := hes
      by_cases hc : objectProtoProps.contains name = true
      · rw [if_pos hc] at hes'
        cases hes'
      · rw [if_neg hc] at hes'
        cases hes'
  | arr es' =>
    simp only [getField] at hes
    cases hidx : ((List.range es'.length).map (fun i => toString i)).indexOf? name with
    | some i =>
      rw [hidx] at hes
      have hes' : es'.getD i JSValue.undefined = JSValue.arr es := hes
      rcases getD_mem_or es' i .undefined _ hes' with hm | hd'
      · have h1 : depthJS (.arr es) < depthJS (.arr es') := depth_elem_lt es' _ hm
        omega
      · cases hd'
    | none =>
      rw [hidx] at hes
      have hes' : (if (name == "length") = true then JSValue.num es'.length
          else if (arrayProtoProps.contains name || objectProtoProps.contains name) = true
            then JSValue.func name else JSValue.undefined) = JSValue.arr es := hes
      by_cases h1 : (name == "length") = true
      · rw [if_pos h1] at hes'
        cases hes'
      · rw [if_neg h1] at hes'
        by_cases h2 : (arrayProtoProps.contains name || objectProtoProps.contains name) = true
        · rw [if_pos h2] at hes'
          cases hes'
        · rw [if_neg h2] at hes'
          cases hes'
  | null => cases hes
  | undefined => cases hes
  | bool b => cases hes
  | num n => cases hes
  | str s => cases hes
  | func f => cases hes

/-- Running two element parsers that agree on every element of a list
gives the same collected results. -/
lemma runAll_congr (p₁ p₂ : Parser JSValue ErrMsg JSValue) (es : List JSValue)
    (h : ∀ e ∈ es, p₁.runParser e = p₂.runParser e) :
    runAll p₁ es = runAll p₂ es := by
  induction es with
  | nil => rfl
  | cons hd tl ih =>
    simp only [runAll]
    rw [h hd (List.mem_cons_self _ _),
      ih (fun e he => h e (List.mem_cons_of_mem _ he))]

/-- `array.of` applied to two element parsers that agree on the elements
of its (array) input gives the same outcome. -/
lemma arrayOf_congr (p₁ p₂ : Parser JSValue ErrMsg JSValue) (w : JSValue)
    (h : ∀ es, w = .arr es → ∀ e ∈ es, p₁.runParser e = p₂.runParser e) :
    (arrayOf p₁).runParser w = (arrayOf p₂).runParser w := by
  cases w with
  | arr es =>
    simp only [arrayOf]
    rw [runAll_congr p₁ p₂ es (h es rfl)]
  | null => rfl
  | undefined => rfl
  | bool b => rfl
  | num n => rfl
  | str s => rfl
  | func f => rfl
  | obj fs => rfl

/-- `object.has` over two field lists whose loops agree on the input
gives the same outcome. -/
lemma objectHas_congr (L₁ L₂ : List (String × FieldParser)) (v : JSValue)
    (h : hasLoop v L₁ [] = hasLoop v L₂ []) :
    (objectHas L₁).runParser v = (objectHas L₂).runParser v := by
  by_cases ht : typeofJS v = "object"
  · have hIf : thingIsObject.runParser v = .val (.right v) := by
      simp [thingIsObject, thingIsOf, ht]
    simp only [objectHas, chain, hIf, JSRun.bind]
    exact h
  · have hIf : thingIsObject.runParser v = .val (.left (.notOfType v "object")) := by
      simp [thingIsObject, thingIsOf, ht]
    simp only [objectHas, chain, hIf, JSRun.bind]

/-- `object.just` over two field lists with the same declared names and
agreeing `has` outcomes gives the same outcome. -/
lemma objectJust_congr (L₁ L₂ : List (String × FieldParser)) (v : JSValue)
    (hnames : L₁.map Prod.fst = L₂.map Prod.fst)
    (hhas : (objectHas L₁).runParser v = (objectHas L₂).runParser v) :
    (objectJust L₁).runParser v = (objectJust L₂).runParser v := by
  simp only [objectJust, inFieldParsers]
  simp only [hhas, hnames]

/-- The declared field list of one unfolding of the rose-tree schema. -/
def roseFields (p : Parser JSValue ErrMsg JSValue) : List (String × FieldParser) :=
  [("value", fieldRequired thingIsString),
   ("children", fieldRequired (arrayOf p))]

/-- One rose-tree unfolding only applies its self-reference to elements
lying two levels below the input, so two self-references that agree there
give the same outcome. -/
lemma roseStep_congr (p₁ p₂ : Parser JSValue ErrMsg JSValue) (v : JSValue)
    (h : ∀ e, depthJS e + 2 ≤ depthJS v → p₁.runParser e = p₂.runParser e) :
    (roseStep p₁).runParser v = (roseStep p₂).runParser v := by
  have harr : (arrayOf p₁).runParser (getField v "children")
      = (arrayOf p₂).runParser (getField v "children") :=
    arrayOf_congr p₁ p₂ _
      (fun es hes e he => h e (getField_depth v "children" es e hes he))
  show (objectJust (roseFields p₁)).runParser v
      = (objectJust (roseFields p₂)).runParser v
  refine objectJust_congr _ _ _ ?_ ?_
  · rfl
  · apply objectHas_congr
    simp only [roseFields, hasLoop, fieldRequired, harr]

/-- Any two recursion budgets exceeding the input's depth give the rose
validator the same outcome (induction on a depth bound). -/
lemma roseParser_stable_aux (d : Nat) :
    ∀ v : JSValue, depthJS v ≤ d → ∀ n m : Nat, depthJS v < n → depthJS v < m →
      (roseParser n).runParser v = (roseParser m).runParser v := by
  induction d with
  | zero =>
    intro v hv n m hn hm
    obtain ⟨n', rfl⟩ : ∃ n', n = n' + 1 := ⟨n - 1, by omega⟩
    obtain ⟨m', rfl⟩ : ∃ m', m = m' + 1 := ⟨m - 1, by omega⟩
    simp only [roseParser]
    exact roseStep_congr _ _ v (fun e he => by omega)
  | succ d ih =>
    intro v hv n m hn hm
    obtain ⟨n', rfl⟩ : ∃ n', n = n' + 1 := ⟨n - 1, by omega⟩
    obtain ⟨m', rfl⟩ : ∃ m', m = m' + 1 := ⟨m - 1, by omega⟩
    simp only [roseParser]
    exact roseStep_congr _ _ v
      (fun e he => ih e (by omega) n' m' (by omega) (by omega))

/-- C8. `recursive(thunk)` delegates every invocation to the parser the
thunk returns at that moment (so a self-referential definition unwinds
one level per invocation instead of recursing at construction time); and
the self-referential rose-tree schema's outcome on a value is fully
determined once the recursion budget exceeds the value's nesting depth —
recursion depth is bounded by the depth of the actual input, so the run
terminates on every finite acyclic input. -/
theorem recursive_rose_depth_stability :
    (∀ (R E I : Type) (body : Unit → Parser R E I) (o : I),
        (recursive body).runParser o = (body ()).runParser o)
    ∧ (∀ (v : JSValue) (n m : Nat), depthJS v < n → depthJS v < m →
        (roseParser n).runParser v = (roseParser m).runParser v) :=
  ⟨fun _ _ _ _ _ => rfl,
   fun v n m hn hm => roseParser_stable_aux (depthJS v) v le_rfl n m hn hm⟩

/-- C8, witness. The delegation equation at a concrete thunk and input;
budget-independence of the rose validator beyond the depth of
`{value: "top", children: [{value: "kid", children: []}]}` (depth 4,
budgets 5 and 50); and the concrete successful outcome at the minimal
sufficient budget. -/
theorem recursive_rose_depth_stability_witness :
    ((recursive (fun _ => thingIsString)).runParser (JSValue.str "x")
      = thingIsString.runParser (JSValue.str "x"))
    ∧ ((roseParser 5).runParser
        (JSValue.obj [("value", JSValue.str "top"),
          ("children", JSValue.arr [JSValue.obj [("value", JSValue.str "kid"),
            ("children", JSValue.arr [])]])])
      = (roseParser 50).runParser
        (JSValue.obj [("value", JSValue.str "top"),
          ("children", JSValue.arr [JSValue.obj [("value", JSValue.str "kid"),
            ("children", JSValue.arr [])]])]))
    ∧ ((roseParser 5).runParser
        (JSValue.obj [("value", JSValue.str "top"),
          ("children", JSValue.arr [JSValue.obj [("value", JSValue.str "kid"),
            ("children", JSValue.arr [])]])])
      = JSRun.val (Either.right
          (JSValue.obj [("value", JSValue.str "top"),
            ("children", JSValue.arr [JSValue.obj [("value", JSValue.str "kid"),
              ("children", JSValue.arr [])]])]))) :=
  ⟨recursive_rose_depth_stability.1 JSValue ErrMsg JSValue
      (fun _ => thingIsString) (JSValue.str "x"),
   recursive_rose_depth_stability.2 _ 5 50 (by decide) (by decide),
   rfl⟩

end Ununknown

